import Mathlib

/-
Verification of the replay state machine of the wdio-allure-reporter
(`packages/wdio-allure-reporter/src/state.ts`, class `AllureReportState`).

The embedding is shallow:

* `Msg` mirrors the `WDIORuntimeMessage` union (suite/test/hook boundary
  messages plus the raw runtime messages `step_start`, `step_stop`,
  `metadata`, `attachment` that fall into the `default` branch of
  `processRuntimeMessage`).
* The external `ReporterRuntime` backend is modelled as a trace of
  `BEvent` values, one per backend call, appended in call order.  Handles
  (uuids) are modelled as consecutive naturals drawn from a counter.
* Awaited backend operations (`writeScope`, `writeTest`, `stopTest`,
  `stopFixture`, and the awaited `applyRuntimeMessages` of the main loop)
  may reject; rejection is modelled by an oracle `Nat → Bool` consulted at
  the current trace length.  A rejected call aborts the computation with
  `Except.error`, carrying the trace of calls completed so far.
  Synchronous backend calls (`startScope`, `startTest`, `updateTest`,
  `startFixture`, `updateFixture`) and the un-awaited
  `applyRuntimeMessages` inside `_closeOpenedSteps` cannot reject.
* Stacks are lists with the head as the top (JS arrays push/pop at the
  end); the scope-path snapshot passed to `startTest` is therefore the
  stack listed top-first, which no claim inspects for order.
-/

inductive AllureStatus
  | passed
  | failed
  | broken
  | skipped
  | unknown
deriving DecidableEq, Repr

inductive HookKind
  | before
  | after
deriving DecidableEq, Repr

inductive Msg
  | suiteStart (name : String) (feature : Bool)
  | suiteEnd
  | testStart (name : String) (start : Nat)
  | testInfo (fullName : String)
  | testEnd (status : AllureStatus) (stage : Option String) (stop : Nat)
      (duration : Option Nat) (statusDetails : Option String)
  | hookStart (name : String) (kind : HookKind) (start : Nat)
  | hookEnd (status : AllureStatus) (statusDetails : Option String) (stop : Nat)
      (duration : Option Nat)
  | stepStart (name : String) (start : Nat)
  | stepStop (status : AllureStatus) (stop : Nat)
  | metadata
  | attachment
deriving DecidableEq, Repr

inductive TestUpdate
  | fullName (v : String)
  | result (status : AllureStatus) (stage : Option String) (statusDetails : Option String)
deriving DecidableEq, Repr

inductive BEvent
  | startScope (uuid : Nat)
  | writeScope (uuid : Nat)
  | startTest (uuid : Nat) (name : String) (start : Nat) (scopes : List Nat)
  | updateTest (uuid : Nat) (u : TestUpdate)
  | stopTest (uuid : Nat) (stop : Nat) (duration : Option Nat)
  | writeTest (uuid : Nat)
  | startFixture (scope : Option Nat) (uuid : Option Nat) (kind : HookKind)
      (name : String) (start : Nat)
  | updateFixture (uuid : Nat) (status : AllureStatus) (statusDetails : Option String)
  | stopFixture (uuid : Nat) (stop : Nat) (duration : Option Nat)
  | applyMessages (uuid : Nat) (m : Msg)
deriving DecidableEq, Repr

structure AllureReportState where
  scopesStack : List Nat := []
  executablesStack : List Nat := []
  fixturesStack : List Nat := []
  currentTestUuid : Option Nat := none
  openSteps : Nat := 0
  nextUuid : Nat := 0
deriving DecidableEq, Repr

abbrev Trace := List BEvent

/-- The failure oracle of an all-successful backend: no call ever rejects. -/
def noFault : Nat → Bool := fun _ => false

/-- An awaited backend call: rejects (per the oracle, keyed by the number of
calls already completed) or appends its event to the trace. -/
def awaitCall (oracle : Nat → Bool) (tr : Trace) (e : BEvent) : Except Trace Trace :=
  if oracle tr.length then Except.error tr else Except.ok (tr ++ [e])

/-- Mirrors `AllureReportState._closeScope`: pop the scope stack; if a scope
was there, persist it with `writeScope` (awaited). -/
def _closeScope (oracle : Nat → Bool) (st : AllureReportState) (tr : Trace) :
    Except Trace (AllureReportState × Trace) :=
  match st.scopesStack with
  | [] => Except.ok (st, tr)
  | s :: rest => do
    let tr1 ← awaitCall oracle tr (BEvent.writeScope s)
    Except.ok ({ st with scopesStack := rest }, tr1)

/-- Mirrors `AllureReportState._writeLastTest`: if a test is current, close one
scope, persist the test with `writeTest`, and clear the current test. -/
def _writeLastTest (oracle : Nat → Bool) (st : AllureReportState) (tr : Trace) :
    Except Trace (AllureReportState × Trace) :=
  match st.currentTestUuid with
  | none => Except.ok (st, tr)
  | some t => do
    let (st1, tr1) ← _closeScope oracle st tr
    let tr2 ← awaitCall oracle tr1 (BEvent.writeTest t)
    Except.ok ({ st1 with currentTestUuid := none }, tr2)

/-- Mirrors `AllureReportState._openScope`: `startScope` (synchronous) returns
a fresh uuid that is pushed onto the scope stack. -/
def _openScope (st : AllureReportState) (tr : Trace) : AllureReportState × Trace :=
  ({ st with scopesStack := st.nextUuid :: st.scopesStack, nextUuid := st.nextUuid + 1 },
   tr ++ [BEvent.startScope st.nextUuid])

/-- Mirrors `AllureReportState._startSuite` (the `if (this._currentTestUuid)`
guard is absorbed into `_writeLastTest`, which is the identity without a
current test). -/
def _startSuite (oracle : Nat → Bool) (st : AllureReportState) (tr : Trace) :
    Except Trace (AllureReportState × Trace) := do
  let (st1, tr1) ← _writeLastTest oracle st tr
  Except.ok (_openScope st1 tr1)

/-- Mirrors `AllureReportState._endSuite`. -/
def _endSuite (oracle : Nat → Bool) (write : Bool) (st : AllureReportState) (tr : Trace) :
    Except Trace (AllureReportState × Trace) := do
  let (st1, tr1) ← _closeScope oracle st tr
  if write then _writeLastTest oracle st1 tr1 else Except.ok (st1, tr1)

/-- Synchronous tail of `_startTest` (after the current test, if any, was
finalized): open a per-test scope, start the test scoped to the whole scope
stack, push its handle, make it current, reset the open-step counter. -/
def _startTestCore (name : String) (start : Nat)
    (st1 : AllureReportState) (tr1 : Trace) : AllureReportState × Trace :=
  let (st2, tr2) := _openScope st1 tr1
  let t := st2.nextUuid
  ({ st2 with
      executablesStack := t :: st2.executablesStack,
      currentTestUuid := some t,
      openSteps := 0,
      nextUuid := st2.nextUuid + 1 },
   tr2 ++ [BEvent.startTest t name start st2.scopesStack])

/-- Mirrors `AllureReportState._startTest`: finalize any current test, then
run the synchronous tail. -/
def _startTest (oracle : Nat → Bool) (name : String) (start : Nat)
    (st : AllureReportState) (tr : Trace) :
    Except Trace (AllureReportState × Trace) := do
  let (st1, tr1) ← _writeLastTest oracle st tr
  Except.ok (_startTestCore name start st1 tr1)

/-- Mirrors `AllureReportState._addTestInfo`: update the most recently pushed
executable (no-op when the stack is empty); synchronous. -/
def _addTestInfo (fullName : String) (st : AllureReportState) (tr : Trace) :
    AllureReportState × Trace :=
  match st.executablesStack.head? with
  | none => (st, tr)
  | some t => (st, tr ++ [BEvent.updateTest t (TestUpdate.fullName fullName)])

/-- The while-loop of `_closeOpenedSteps`: emit one synthesized `step_stop`
per open step (the `applyRuntimeMessages` there is not awaited, hence cannot
reject). -/
def closeStepsLoop (t : Nat) (status : AllureStatus) (stop : Nat) :
    Nat → Trace → Trace
  | 0, tr => tr
  | n + 1, tr =>
      closeStepsLoop t status stop n
        (tr ++ [BEvent.applyMessages t (Msg.stepStop status stop)])

/-- Mirrors `AllureReportState._closeOpenedSteps`: without a current test it
returns immediately; otherwise it drives the open-step counter to zero. -/
def _closeOpenedSteps (status : AllureStatus) (stop : Nat)
    (st : AllureReportState) (tr : Trace) : AllureReportState × Trace :=
  match st.currentTestUuid with
  | none => (st, tr)
  | some t => ({ st with openSteps := 0 }, closeStepsLoop t status stop st.openSteps tr)

/-- Mirrors `AllureReportState._endTest`: pop the executable stack (no-op when
empty), force-close open steps, apply the terminal result, stop the test
(awaited), and finalize it when `write` is set. -/
def _endTest (oracle : Nat → Bool) (status : AllureStatus) (stage : Option String)
    (stop : Nat) (duration : Option Nat) (statusDetails : Option String) (write : Bool)
    (st : AllureReportState) (tr : Trace) :
    Except Trace (AllureReportState × Trace) :=
  match st.executablesStack with
  | [] => Except.ok (st, tr)
  | t :: rest => do
    let (st2, tr2) := _closeOpenedSteps status stop { st with executablesStack := rest } tr
    let tr3 := tr2 ++ [BEvent.updateTest t (TestUpdate.result status stage statusDetails)]
    let tr4 ← awaitCall oracle tr3 (BEvent.stopTest t stop duration)
    if write then _writeLastTest oracle st2 tr4 else Except.ok (st2, tr4)

/-- Substring test on character lists, mirroring `RegExp.prototype.test` for a
literal pattern. -/
def listStartsWith : List Char → List Char → Bool
  | [], _ => true
  | _ :: _, [] => false
  | p :: ps, c :: cs => p == c && listStartsWith ps cs

/-- Substring occurrence test on character lists. -/
def hasSub (pat : List Char) : List Char → Bool
  | [] => pat.isEmpty
  | c :: cs => listStartsWith pat (c :: cs) || hasSub pat cs

/-- ASCII lower-casing of a character (the only case folding relevant to the
all-ASCII pattern "after all"). -/
def charToLower (c : Char) : Char :=
  if 65 ≤ c.toNat ∧ c.toNat ≤ 90 then Char.ofNat (c.toNat + 32) else c

/-- Mirrors the `/after all/i.test(name)` check of `_startHook`: the pattern is
caseless, so it holds iff the (ASCII-)lower-cased name contains "after all". -/
def matchesAfterAll (name : String) : Bool :=
  hasSub "after all".toList (name.toList.map charToLower)

/-- Mirrors `AllureReportState._startHook`: an after-all hook arriving with an
open test finalizes that test first; then `startFixture` (synchronous) is
asked for a fixture scoped to the top scope — it declines (returns no handle)
iff no scope is open, and a granted handle is pushed onto the fixture stack. -/
def _startHookCore (name : String) (kind : HookKind) (start : Nat)
    (st1 : AllureReportState) (tr1 : Trace) : AllureReportState × Trace :=
  let scopeUuid := st1.scopesStack.head?
  let hookUuid : Option Nat := match scopeUuid with
    | none => none
    | some _ => some st1.nextUuid
  let tr2 := tr1 ++ [BEvent.startFixture scopeUuid hookUuid kind name start]
  match hookUuid with
  | none => (st1, tr2)
  | some h =>
      ({ st1 with fixturesStack := h :: st1.fixturesStack,
                  nextUuid := st1.nextUuid + 1 }, tr2)

/-- Mirrors `AllureReportState._startHook`: an after-all hook arriving with an
open test finalizes that test first; then the synchronous tail runs. -/
def _startHook (oracle : Nat → Bool) (name : String) (kind : HookKind) (start : Nat)
    (st : AllureReportState) (tr : Trace) :
    Except Trace (AllureReportState × Trace) := do
  let (st1, tr1) ←
    if matchesAfterAll name && st.currentTestUuid.isSome then
      _writeLastTest oracle st tr
    else Except.ok (st, tr)
  Except.ok (_startHookCore name kind start st1 tr1)

/-- Mirrors `AllureReportState._endHook`: pop the fixture stack (no-op when
empty), apply the result (synchronous), stop the fixture (awaited). -/
def _endHook (oracle : Nat → Bool) (status : AllureStatus) (statusDetails : Option String)
    (stop : Nat) (duration : Option Nat) (st : AllureReportState) (tr : Trace) :
    Except Trace (AllureReportState × Trace) :=
  match st.fixturesStack with
  | [] => Except.ok (st, tr)
  | h :: rest => do
    let tr1 := tr ++ [BEvent.updateFixture h status statusDetails]
    let tr2 ← awaitCall oracle tr1 (BEvent.stopFixture h stop duration)
    Except.ok ({ st with fixturesStack := rest }, tr2)

/-- The `default` branch of `processRuntimeMessage`: raw runtime messages are
dropped without an open test; otherwise the open-step counter is adjusted
(`step_stop` floors at zero) and the message is forwarded verbatim to the
awaited `applyRuntimeMessages`. -/
def applyDefault (oracle : Nat → Bool) (m : Msg) (st : AllureReportState) (tr : Trace) :
    Except Trace (AllureReportState × Trace) :=
  match st.currentTestUuid with
  | none => Except.ok (st, tr)
  | some t => do
    let st1 :=
      match m with
      | Msg.stepStart _ _ => { st with openSteps := st.openSteps + 1 }
      | Msg.stepStop _ _ => { st with openSteps := st.openSteps - 1 }
      | _ => st
    let tr1 ← awaitCall oracle tr (BEvent.applyMessages t m)
    Except.ok (st1, tr1)

/-- The per-message dispatch of `processRuntimeMessage` (`isLast` is the
`i === this.messages.length - 1` look-ahead). -/
def step (oracle : Nat → Bool) (st : AllureReportState) (tr : Trace) (m : Msg)
    (isLast : Bool) : Except Trace (AllureReportState × Trace) :=
  match m with
  | Msg.suiteStart _ _ => _startSuite oracle st tr
  | Msg.suiteEnd => _endSuite oracle isLast st tr
  | Msg.testStart name start => _startTest oracle name start st tr
  | Msg.testInfo fullName => Except.ok (_addTestInfo fullName st tr)
  | Msg.testEnd status stage stop duration sd =>
      _endTest oracle status stage stop duration sd isLast st tr
  | Msg.hookStart name kind start => _startHook oracle name kind start st tr
  | Msg.hookEnd status sd stop duration => _endHook oracle status sd stop duration st tr
  | Msg.stepStart name start => applyDefault oracle (Msg.stepStart name start) st tr
  | Msg.stepStop status stop => applyDefault oracle (Msg.stepStop status stop) st tr
  | Msg.metadata => applyDefault oracle Msg.metadata st tr
  | Msg.attachment => applyDefault oracle Msg.attachment st tr

/-- The `for` loop of `processRuntimeMessage`; an error records the index of
the message whose processing rejected, together with the completed trace. -/
def runLoop (oracle : Nat → Bool) :
    List Msg → Nat → AllureReportState → Trace →
    Except (Nat × Trace) (AllureReportState × Trace)
  | [], _, st, tr => Except.ok (st, tr)
  | m :: rest, i, st, tr =>
    match step oracle st tr m rest.isEmpty with
    | Except.error trE => Except.error (i, trE)
    | Except.ok (st1, tr1) => runLoop oracle rest (i + 1) st1 tr1

/-- The end-of-log scope drain (`while (this._scopesStack.length > 0)
await this._closeScope()`), unrolled over the stack contents. -/
def drainGo (oracle : Nat → Bool) : List Nat → Trace → Except Trace Trace
  | [], tr => Except.ok tr
  | s :: rest, tr => do
    let tr1 ← awaitCall oracle tr (BEvent.writeScope s)
    drainGo oracle rest tr1

/-- End-of-log drain of the scope stack. -/
def drainScopes (oracle : Nat → Bool) (st : AllureReportState) (tr : Trace) :
    Except Trace (AllureReportState × Trace) := do
  let tr1 ← drainGo oracle st.scopesStack tr
  Except.ok ({ st with scopesStack := [] }, tr1)

/-- The fresh state of a session (`new AllureReportState(runtime)`). -/
def initState : AllureReportState := {}

/-- Mirrors `AllureReportState.processRuntimeMessage` (the replay): a single
ordered pass over the message log, then the end-of-log drain (finalize a
still-open test, pop and persist every remaining scope). -/
def processRuntimeMessage (oracle : Nat → Bool) (msgs : List Msg) :
    Except (Nat × Trace) (AllureReportState × Trace) :=
  match runLoop oracle msgs 0 initState [] with
  | Except.error e => Except.error e
  | Except.ok (st, tr) =>
    match _writeLastTest oracle st tr with
    | Except.error trE => Except.error (msgs.length, trE)
    | Except.ok (st1, tr1) =>
      match drainScopes oracle st1 tr1 with
      | Except.error trE => Except.error (msgs.length, trE)
      | Except.ok r => Except.ok r

/-- Replay against an all-successful backend. -/
def replay (msgs : List Msg) : Except (Nat × Trace) (AllureReportState × Trace) :=
  processRuntimeMessage noFault msgs

/-- Final state of a fault-free replay (initial state when replay rejects,
which `noFault` never does). -/
def replayState (msgs : List Msg) : AllureReportState :=
  match replay msgs with
  | Except.ok (st, _) => st
  | Except.error _ => initState

/-- Backend-call trace of a fault-free replay. -/
def replayTrace (msgs : List Msg) : Trace :=
  match replay msgs with
  | Except.ok (_, tr) => tr
  | Except.error (_, tr) => tr

/-- Modelled from the spec: `findLastIndex` of `utils.ts` (not under `src/`) —
"a backward search for the last index" of a message kind, `-1` when the kind
is absent. -/
def findLastIndex (p : Msg → Bool) : List Msg → Int
  | [] => -1
  | x :: xs =>
    let r := findLastIndex p xs
    if 0 ≤ r then r + 1 else if p x then 0 else -1

/-- Modelled from the spec: `findLast` of `utils.ts` (not under `src/`) — the
most recent element of the log satisfying the predicate. -/
def findLast (p : Msg → Bool) : List Msg → Option Msg
  | [] => none
  | x :: xs =>
    match findLast p xs with
    | some y => some y
    | none => if p x then some x else none

def isSuiteStartMsg : Msg → Bool
  | Msg.suiteStart _ _ => true
  | _ => false

def isSuiteEndMsg : Msg → Bool
  | Msg.suiteEnd => true
  | _ => false

def isTestStartMsg : Msg → Bool
  | Msg.testStart _ _ => true
  | _ => false

def isTestEndMsg : Msg → Bool
  | Msg.testEnd _ _ _ _ _ => true
  | _ => false

def isStepStartMsg : Msg → Bool
  | Msg.stepStart _ _ => true
  | _ => false

def isStepStopMsg : Msg → Bool
  | Msg.stepStop _ _ => true
  | _ => false

def isHookStartMsg : Msg → Bool
  | Msg.hookStart _ _ _ => true
  | _ => false

def isHookEndMsg : Msg → Bool
  | Msg.hookEnd _ _ _ _ => true
  | _ => false

/-- A `allure:suite:start` message whose payload marks a feature-level
grouping (`Boolean(data.feature)` in `currentFeature`). -/
def isFeatureSuiteStart : Msg → Bool
  | Msg.suiteStart _ f => f
  | _ => false

/-- Mirrors the getter `hasPendingSuite` (over the session's message log). -/
def hasPendingSuite (msgs : List Msg) : Bool :=
  decide (findLastIndex isSuiteStartMsg msgs > findLastIndex isSuiteEndMsg msgs)

/-- Mirrors the getter `hasPendingTest`. -/
def hasPendingTest (msgs : List Msg) : Bool :=
  decide (findLastIndex isTestStartMsg msgs > findLastIndex isTestEndMsg msgs)

/-- Mirrors the getter `hasPendingStep`. -/
def hasPendingStep (msgs : List Msg) : Bool :=
  decide (findLastIndex isStepStartMsg msgs > findLastIndex isStepStopMsg msgs)

/-- Mirrors the getter `hasPendingHook`. -/
def hasPendingHook (msgs : List Msg) : Bool :=
  decide (findLastIndex isHookStartMsg msgs > findLastIndex isHookEndMsg msgs)

/-- Name payload of a suite-start message. -/
def suiteNameOf : Msg → Option String
  | Msg.suiteStart n _ => some n
  | _ => none

/-- Mirrors the getter `currentFeature`: the name of the most recent
feature-level suite-start message found by backward search. -/
def currentFeature (msgs : List Msg) : Option String :=
  (findLast isFeatureSuiteStart msgs).bind suiteNameOf

/-- Fault-free partial run: the state and trace after the first `n` messages
of the log have been processed against an all-successful backend (the
look-ahead flag is computed exactly as in the full loop). -/
def runUpTo : List Msg → Nat → AllureReportState → Trace → AllureReportState × Trace
  | _, 0, st, tr => (st, tr)
  | [], _ + 1, st, tr => (st, tr)
  | m :: rest, n + 1, st, tr =>
    match step noFault st tr m rest.isEmpty with
    | Except.ok (st1, tr1) => runUpTo rest n st1 tr1
    | Except.error _ => (st, tr)

/-- A backend computation parameterised by the failure oracle. -/
abbrev Comp := (Nat → Bool) → Except Trace (AllureReportState × Trace)

/-- A computation is `Good` for an input trace when its fault-free run
succeeds with an extension of that trace, and against any oracle it either
behaves exactly as the fault-free run or rejects with a completed-call trace
sandwiched between the input trace and the fault-free result. -/
def Good (tr : Trace) (c : Comp) : Prop :=
  ∃ stN trN, c noFault = Except.ok (stN, trN) ∧ tr <+: trN ∧
    ∀ oracle, c oracle = c noFault ∨
      ∃ trE, c oracle = Except.error trE ∧ tr <+: trE ∧ trE <+: trN

/-- Trace-valued variant of `Good`, for a bare awaited call. -/
def GoodT (tr : Trace) (c : (Nat → Bool) → Except Trace Trace) : Prop :=
  ∃ trN, c noFault = Except.ok trN ∧ tr <+: trN ∧
    ∀ oracle, c oracle = c noFault ∨
      ∃ trE, c oracle = Except.error trE ∧ tr <+: trE ∧ trE <+: trN

/-- The round-trip log of the spec's testable property:
`suite_start → test_start → step_start → step_stop → test_end → suite_end`. -/
def roundTripLog : List Msg :=
  [Msg.suiteStart "s" false, Msg.testStart "t" 0, Msg.stepStart "st" 1,
   Msg.stepStop AllureStatus.passed 2, Msg.testEnd AllureStatus.passed none 3 none none,
   Msg.suiteEnd]

def isWriteScopeEv : BEvent → Bool
  | BEvent.writeScope _ => true
  | _ => false

def isWriteTestEv : BEvent → Bool
  | BEvent.writeTest _ => true
  | _ => false

def isApplyStepStartEv : BEvent → Bool
  | BEvent.applyMessages _ (Msg.stepStart _ _) => true
  | _ => false

def isApplyStepStopEv : BEvent → Bool
  | BEvent.applyMessages _ (Msg.stepStop _ _) => true
  | _ => false

/-- The claim's reading of "pending": some start message exists after which no
end message follows in the log. -/
def PendingSpec (ps pe : Msg → Bool) (l : List Msg) : Prop :=
  ∃ i, ∃ hi : i < l.length, ps (l.get ⟨i, hi⟩) = true ∧
    ∀ j, ∀ hj : j < l.length, i < j → pe (l.get ⟨j, hj⟩) = false

lemma pfx_rfl {α : Type} (l : List α) : l <+: l := ⟨[], List.append_nil l⟩

lemma pfx_app {α : Type} (l t : List α) : l <+: l ++ t := ⟨t, rfl⟩

lemma pfx_trans {α : Type} {a b c : List α} (h1 : a <+: b) (h2 : b <+: c) : a <+: c := by
  obtain ⟨u, hu⟩ := h1
  obtain ⟨v, hv⟩ := h2
  exact ⟨u ++ v, by rw [← hv, ← hu, List.append_assoc]⟩

lemma awaitCall_noFault (tr : Trace) (e : BEvent) :
    awaitCall noFault tr e = Except.ok (tr ++ [e]) := by
  simp [awaitCall, noFault]

lemma good_pure (s : AllureReportState) (t u : Trace) (h : t <+: u) :
    Good t (fun _ => Except.ok (s, u)) :=
  ⟨s, u, rfl, h, fun _ => Or.inl rfl⟩

lemma goodT_awaitCall (t : Trace) (e : BEvent) :
    GoodT t (fun oracle => awaitCall oracle t e) := by
  refine ⟨t ++ [e], awaitCall_noFault t e, pfx_app t [e], fun oracle => ?_⟩
  by_cases h : oracle t.length = true
  · exact Or.inr ⟨t, by simp [awaitCall, h], pfx_rfl t, pfx_app t [e]⟩
  · exact Or.inl (by simp [awaitCall, noFault, h])

lemma good_bind {t : Trace} {c : Comp} {k : AllureReportState → Trace → Comp}
    (hc : Good t c)
    (hk : ∀ s u, c noFault = Except.ok (s, u) → Good u (k s u)) :
    Good t (fun oracle => c oracle >>= fun p => k p.1 p.2 oracle) := by
  obtain ⟨sN, tN, hN, hpre, hdi⟩ := hc
  obtain ⟨sN2, tN2, hN2, hpre2, hdi2⟩ := hk sN tN hN
  refine ⟨sN2, tN2, ?_, pfx_trans hpre hpre2, fun oracle => ?_⟩
  · show c noFault >>= _ = _
    rw [hN]
    exact hN2
  · rcases hdi oracle with heq | ⟨trE, hE, h1, h2⟩
    · rcases hdi2 oracle with heq2 | ⟨trE2, hE2, h12, h22⟩
      · refine Or.inl ?_
        show (c oracle >>= fun p => k p.1 p.2 oracle) =
          (c noFault >>= fun p => k p.1 p.2 noFault)
        rw [heq, hN]
        show k sN tN oracle = k sN tN noFault
        rw [heq2]
      · refine Or.inr ⟨trE2, ?_, pfx_trans hpre h12, h22⟩
        show (c oracle >>= fun p => k p.1 p.2 oracle) = Except.error trE2
        rw [heq, hN]
        exact hE2
    · refine Or.inr ⟨trE, ?_, h1, pfx_trans h2 hpre2⟩
      show (c oracle >>= fun p => k p.1 p.2 oracle) = Except.error trE
      rw [hE]
      rfl

lemma good_bindT {t : Trace} {c : (Nat → Bool) → Except Trace Trace}
    {k : Trace → Comp}
    (hc : GoodT t c)
    (hk : ∀ u, c noFault = Except.ok u → Good u (k u)) :
    Good t (fun oracle => c oracle >>= fun v => k v oracle) := by
  obtain ⟨tN, hN, hpre, hdi⟩ := hc
  obtain ⟨sN2, tN2, hN2, hpre2, hdi2⟩ := hk tN hN
  refine ⟨sN2, tN2, ?_, pfx_trans hpre hpre2, fun oracle => ?_⟩
  · show c noFault >>= _ = _
    rw [hN]
    exact hN2
  · rcases hdi oracle with heq | ⟨trE, hE, h1, h2⟩
    · rcases hdi2 oracle with heq2 | ⟨trE2, hE2, h12, h22⟩
      · refine Or.inl ?_
        show (c oracle >>= fun v => k v oracle) =
          (c noFault >>= fun v => k v noFault)
        rw [heq, hN]
        show k tN oracle = k tN noFault
        rw [heq2]
      · refine Or.inr ⟨trE2, ?_, pfx_trans hpre h12, h22⟩
        show (c oracle >>= fun v => k v oracle) = Except.error trE2
        rw [heq, hN]
        exact hE2
    · refine Or.inr ⟨trE, ?_, h1, pfx_trans h2 hpre2⟩
      show (c oracle >>= fun v => k v oracle) = Except.error trE
      rw [hE]
      rfl

lemma goodT_bindT {t : Trace} {c : (Nat → Bool) → Except Trace Trace}
    {k : Trace → (Nat → Bool) → Except Trace Trace}
    (hc : GoodT t c)
    (hk : ∀ u, c noFault = Except.ok u → GoodT u (k u)) :
    GoodT t (fun oracle => c oracle >>= fun v => k v oracle) := by
  obtain ⟨tN, hN, hpre, hdi⟩ := hc
  obtain ⟨tN2, hN2, hpre2, hdi2⟩ := hk tN hN
  refine ⟨tN2, ?_, pfx_trans hpre hpre2, fun oracle => ?_⟩
  · show c noFault >>= _ = _
    rw [hN]
    exact hN2
  · rcases hdi oracle with heq | ⟨trE, hE, h1, h2⟩
    · rcases hdi2 oracle with heq2 | ⟨trE2, hE2, h12, h22⟩
      · refine Or.inl ?_
        show (c oracle >>= fun v => k v oracle) = (c noFault >>= fun v => k v noFault)
        rw [heq, hN]
        show k tN oracle = k tN noFault
        rw [heq2]
      · refine Or.inr ⟨trE2, ?_, pfx_trans hpre h12, h22⟩
        show (c oracle >>= fun v => k v oracle) = Except.error trE2
        rw [heq, hN]
        exact hE2
    · refine Or.inr ⟨trE, ?_, h1, pfx_trans h2 hpre2⟩
      show (c oracle >>= fun v => k v oracle) = Except.error trE
      rw [hE]
      rfl

lemma good_weaken {t u : Trace} {c : Comp} (h : t <+: u) (hc : Good u c) : Good t c := by
  obtain ⟨sN, tN, hN, hpre, hdi⟩ := hc
  refine ⟨sN, tN, hN, pfx_trans h hpre, fun oracle => ?_⟩
  rcases hdi oracle with heq | ⟨trE, hE, h1, h2⟩
  · exact Or.inl heq
  · exact Or.inr ⟨trE, hE, pfx_trans h h1, h2⟩

/-- Unfolding of the force-close loop: it terminates after exactly `n`
iterations, emitting `n` synthesized `step_stop` applications. -/
lemma closeStepsLoop_eq (t : Nat) (status : AllureStatus) (stop : Nat) :
    ∀ (n : Nat) (tr : Trace),
      closeStepsLoop t status stop n tr =
        tr ++ List.replicate n (BEvent.applyMessages t (Msg.stepStop status stop)) := by
  intro n
  induction n with
  | zero => intro tr; simp [closeStepsLoop]
  | succ k ih =>
    intro tr
    rw [closeStepsLoop, ih]
    simp [List.replicate_succ]

lemma good_closeScope (st : AllureReportState) (tr : Trace) :
    Good tr (fun oracle => _closeScope oracle st tr) := by
  cases h : st.scopesStack with
  | nil =>
    simp only [_closeScope, h]
    exact good_pure st tr tr (pfx_rfl tr)
  | cons s rest =>
    simp only [_closeScope, h]
    exact good_bindT (goodT_awaitCall tr (BEvent.writeScope s))
      (fun u _ => good_pure _ u u (pfx_rfl u))

lemma good_writeLastTest (st : AllureReportState) (tr : Trace) :
    Good tr (fun oracle => _writeLastTest oracle st tr) := by
  cases h : st.currentTestUuid with
  | none =>
    simp only [_writeLastTest, h]
    exact good_pure st tr tr (pfx_rfl tr)
  | some t =>
    simp only [_writeLastTest, h]
    refine good_bind
      (k := fun s u oracle =>
        awaitCall oracle u (BEvent.writeTest t) >>= fun v =>
          Except.ok ({ s with currentTestUuid := none }, v))
      (good_closeScope st tr) (fun s u _ => ?_)
    exact good_bindT (goodT_awaitCall u (BEvent.writeTest t))
      (fun v _ => good_pure _ v v (pfx_rfl v))

lemma good_startSuite (st : AllureReportState) (tr : Trace) :
    Good tr (fun oracle => _startSuite oracle st tr) := by
  simp only [_startSuite]
  refine good_bind
    (k := fun s u _ => Except.ok (_openScope s u))
    (good_writeLastTest st tr) (fun s u _ => ?_)
  simp only [_openScope]
  exact good_pure _ u _ (pfx_app u _)

lemma good_endSuite (write : Bool) (st : AllureReportState) (tr : Trace) :
    Good tr (fun oracle => _endSuite oracle write st tr) := by
  simp only [_endSuite]
  refine good_bind
    (k := fun s u oracle =>
      if write then _writeLastTest oracle s u else Except.ok (s, u))
    (good_closeScope st tr) (fun s u _ => ?_)
  cases write with
  | false =>
    simp only [Bool.false_eq_true, if_false]
    exact good_pure s u u (pfx_rfl u)
  | true =>
    simp only [if_true]
    exact good_writeLastTest s u

lemma startTestCore_trace (name : String) (start : Nat)
    (s : AllureReportState) (u : Trace) : u <+: (_startTestCore name start s u).2 := by
  simp only [_startTestCore, _openScope]
  exact pfx_trans (pfx_app u _) (pfx_app _ _)

lemma good_startTest (name : String) (start : Nat) (st : AllureReportState) (tr : Trace) :
    Good tr (fun oracle => _startTest oracle name start st tr) := by
  simp only [_startTest]
  refine good_bind
    (k := fun s u _ => Except.ok (_startTestCore name start s u))
    (good_writeLastTest st tr) (fun s u _ => ?_)
  exact good_pure _ u _ (startTestCore_trace name start s u)

lemma good_endTest (status : AllureStatus) (stage : Option String) (stop : Nat)
    (duration : Option Nat) (statusDetails : Option String) (write : Bool)
    (st : AllureReportState) (tr : Trace) :
    Good tr (fun oracle => _endTest oracle status stage stop duration statusDetails write st tr) := by
  cases h : st.executablesStack with
  | nil =>
    simp only [_endTest, h]
    exact good_pure st tr tr (pfx_rfl tr)
  | cons t rest =>
    simp only [_endTest, h]
    rcases hcs : _closeOpenedSteps status stop { st with executablesStack := rest } tr
      with ⟨st2, tr2⟩
    simp only [hcs]
    have htr2 : tr <+: tr2 ++ [BEvent.updateTest t (TestUpdate.result status stage statusDetails)] := by
      have : tr <+: tr2 := by
        have := hcs
        unfold _closeOpenedSteps at this
        cases h2 : ({ st with executablesStack := rest } : AllureReportState).currentTestUuid with
        | none => rw [h2] at this; cases this; exact pfx_rfl tr
        | some u =>
          rw [h2] at this
          cases this
          rw [closeStepsLoop_eq]
          exact pfx_app tr _
      exact pfx_trans this (pfx_app tr2 _)
    refine good_weaken htr2 ?_
    refine good_bindT (goodT_awaitCall _ (BEvent.stopTest t stop duration)) (fun u2 _ => ?_)
    cases write with
    | false =>
      simp only [Bool.false_eq_true, if_false]
      exact good_pure st2 u2 u2 (pfx_rfl u2)
    | true =>
      simp only [if_true]
      exact good_writeLastTest st2 u2

lemma startHookCore_trace (name : String) (kind : HookKind) (start : Nat)
    (s : AllureReportState) (u : Trace) : u <+: (_startHookCore name kind start s u).2 := by
  cases h : s.scopesStack.head? with
  | none =>
    simp only [_startHookCore, h]
    exact pfx_app u _
  | some sc =>
    simp only [_startHookCore, h]
    exact pfx_app u _

lemma good_startHook (name : String) (kind : HookKind) (start : Nat)
    (st : AllureReportState) (tr : Trace) :
    Good tr (fun oracle => _startHook oracle name kind start st tr) := by
  simp only [_startHook]
  by_cases h : (matchesAfterAll name && st.currentTestUuid.isSome) = true
  · simp only [h, if_true]
    refine good_bind
      (k := fun s u _ => Except.ok (_startHookCore name kind start s u))
      (good_writeLastTest st tr)
      (fun s u _ => good_pure _ u _ (startHookCore_trace name kind start s u))
  · simp only [h, if_false]
    exact good_pure (_startHookCore name kind start st tr).1 tr
      (_startHookCore name kind start st tr).2 (startHookCore_trace name kind start st tr)

lemma good_endHook (status : AllureStatus) (statusDetails : Option String) (stop : Nat)
    (duration : Option Nat) (st : AllureReportState) (tr : Trace) :
    Good tr (fun oracle => _endHook oracle status statusDetails stop duration st tr) := by
  cases h : st.fixturesStack with
  | nil =>
    simp only [_endHook, h]
    exact good_pure st tr tr (pfx_rfl tr)
  | cons f rest =>
    simp only [_endHook, h]
    refine good_weaken (pfx_app tr [BEvent.updateFixture f status statusDetails]) ?_
    refine good_bindT (goodT_awaitCall _ (BEvent.stopFixture f stop duration)) (fun u2 _ => ?_)
    exact good_pure _ u2 u2 (pfx_rfl u2)

lemma good_applyDefault (m : Msg) (st : AllureReportState) (tr : Trace) :
    Good tr (fun oracle => applyDefault oracle m st tr) := by
  cases h : st.currentTestUuid with
  | none =>
    simp only [applyDefault, h]
    exact good_pure st tr tr (pfx_rfl tr)
  | some t =>
    simp only [applyDefault, h]
    exact good_bindT (goodT_awaitCall tr (BEvent.applyMessages t m))
      (fun u _ => good_pure _ u u (pfx_rfl u))

lemma good_step (st : AllureReportState) (tr : Trace) (m : Msg) (isLast : Bool) :
    Good tr (fun oracle => step oracle st tr m isLast) := by
  cases m with
  | suiteStart name feature => exact good_startSuite st tr
  | suiteEnd => exact good_endSuite isLast st tr
  | testStart name start => exact good_startTest name start st tr
  | testInfo fullName =>
    simp only [step, _addTestInfo]
    cases h : st.executablesStack.head? with
    | none =>
      simp only [h]
      exact good_pure st tr tr (pfx_rfl tr)
    | some t =>
      simp only [h]
      exact good_pure st tr _ (pfx_app tr _)
  | testEnd status stage stop duration sd => exact good_endTest status stage stop duration sd isLast st tr
  | hookStart name kind start => exact good_startHook name kind start st tr
  | hookEnd status sd stop duration => exact good_endHook status sd stop duration st tr
  | stepStart name start => exact good_applyDefault (Msg.stepStart name start) st tr
  | stepStop status stop => exact good_applyDefault (Msg.stepStop status stop) st tr
  | metadata => exact good_applyDefault Msg.metadata st tr
  | attachment => exact good_applyDefault Msg.attachment st tr

/-- Fault-free unfolding of the end-of-log scope drain: it terminates after
exactly one `writeScope` per stacked scope, in stack order. -/
lemma drainGo_noFault : ∀ (l : List Nat) (tr : Trace),
    drainGo noFault l tr = Except.ok (tr ++ l.map BEvent.writeScope) := by
  intro l
  induction l with
  | nil => intro tr; simp [drainGo]
  | cons s rest ih =>
    intro tr
    show awaitCall noFault tr (BEvent.writeScope s) >>= _ = _
    rw [awaitCall_noFault]
    show drainGo noFault rest (tr ++ [BEvent.writeScope s]) = _
    rw [ih]
    simp

lemma goodT_drainGo : ∀ (l : List Nat) (tr : Trace),
    GoodT tr (fun oracle => drainGo oracle l tr) := by
  intro l
  induction l with
  | nil =>
    intro tr
    exact ⟨tr, rfl, pfx_rfl tr, fun _ => Or.inl rfl⟩
  | cons s rest ih =>
    intro tr
    show GoodT tr (fun oracle => awaitCall oracle tr (BEvent.writeScope s) >>= fun v => drainGo oracle rest v)
    exact goodT_bindT (goodT_awaitCall tr (BEvent.writeScope s)) (fun u _ => ih u)

lemma good_drainScopes (st : AllureReportState) (tr : Trace) :
    Good tr (fun oracle => drainScopes oracle st tr) := by
  simp only [drainScopes]
  exact good_bindT (goodT_drainGo st.scopesStack tr)
    (fun u _ => good_pure _ u u (pfx_rfl u))

lemma drainScopes_noFault (st : AllureReportState) (tr : Trace) :
    drainScopes noFault st tr =
      Except.ok ({ st with scopesStack := [] },
        tr ++ st.scopesStack.map BEvent.writeScope) := by
  show drainGo noFault st.scopesStack tr >>= _ = _
  rw [drainGo_noFault]
  rfl

/-- The fault-free loop never rejects, and under an arbitrary oracle the loop
either coincides with the fault-free run or rejects at some message index `j`,
with the completed calls sandwiched between the fault-free calls of the first
`j - i` messages and the fault-free calls of the whole log. -/
lemma runLoop_sim : ∀ (msgs : List Msg) (i : Nat) (st : AllureReportState) (tr : Trace),
    ∃ stN trN, runLoop noFault msgs i st tr = Except.ok (stN, trN) ∧ tr <+: trN ∧
      ∀ oracle,
        runLoop oracle msgs i st tr = runLoop noFault msgs i st tr ∨
        ∃ j trE, runLoop oracle msgs i st tr = Except.error (j, trE) ∧
          i ≤ j ∧ j < i + msgs.length ∧
          (runUpTo msgs (j - i) st tr).2 <+: trE ∧ trE <+: trN := by
  intro msgs
  induction msgs with
  | nil =>
    intro i st tr
    exact ⟨st, tr, rfl, pfx_rfl tr, fun _ => Or.inl rfl⟩
  | cons m rest ih =>
    intro i st tr
    obtain ⟨s1, t1, hstep, hpre1, hdi⟩ := good_step st tr m rest.isEmpty
    replace hstep : step noFault st tr m rest.isEmpty = Except.ok (s1, t1) := hstep
    obtain ⟨sN, tN, hloop, hpre2, hdiL⟩ := ih (i + 1) s1 t1
    have hNF : runLoop noFault (m :: rest) i st tr = Except.ok (sN, tN) := by
      show (match step noFault st tr m rest.isEmpty with
        | Except.error trE => Except.error (i, trE)
        | Except.ok (st1, tr1) => runLoop noFault rest (i + 1) st1 tr1) = _
      rw [hstep]
      exact hloop
    refine ⟨sN, tN, hNF, pfx_trans hpre1 hpre2, fun oracle => ?_⟩
    rcases hdi oracle with heq | ⟨trE, hE, h1, h2⟩
    · replace heq : step oracle st tr m rest.isEmpty = step noFault st tr m rest.isEmpty := heq
      have hred : runLoop oracle (m :: rest) i st tr = runLoop oracle rest (i + 1) s1 t1 := by
        show (match step oracle st tr m rest.isEmpty with
          | Except.error trE => Except.error (i, trE)
          | Except.ok (st1, tr1) => runLoop oracle rest (i + 1) st1 tr1) = _
        rw [heq, hstep]
      rcases hdiL oracle with heqL | ⟨j, trE, hEL, hij, hlt, hlow, hup⟩
      · refine Or.inl ?_
        rw [hred, heqL, hloop, hNF]
      · refine Or.inr ⟨j, trE, by rw [hred]; exact hEL, by omega, by simp; omega, ?_, hup⟩
        have hji : j - i = (j - (i + 1)) + 1 := by omega
        rw [hji]
        show (match step noFault st tr m rest.isEmpty with
          | Except.ok (st1, tr1) => runUpTo rest (j - (i + 1)) st1 tr1
          | Except.error _ => (st, tr)).2 <+: trE
        rw [hstep]
        exact hlow
    · replace hE : step oracle st tr m rest.isEmpty = Except.error trE := hE
      refine Or.inr ⟨i, trE, ?_, Nat.le_refl i, by simp, ?_, pfx_trans h2 hpre2⟩
      · show (match step oracle st tr m rest.isEmpty with
          | Except.error trE => Except.error (i, trE)
          | Except.ok (st1, tr1) => runLoop oracle rest (i + 1) st1 tr1) = _
        rw [hE]
      · simp only [Nat.sub_self]
        show (st, tr).2 <+: trE
        exact h1

/-- `runUpTo` run for (at least) the whole log agrees with the fault-free
loop result. -/
lemma runUpTo_full : ∀ (msgs : List Msg) (i : Nat) (st : AllureReportState) (tr : Trace)
    (stN : AllureReportState) (trN : Trace),
    runLoop noFault msgs i st tr = Except.ok (stN, trN) →
    runUpTo msgs msgs.length st tr = (stN, trN) := by
  intro msgs
  induction msgs with
  | nil =>
    intro i st tr stN trN h
    cases h
    rfl
  | cons m rest ih =>
    intro i st tr stN trN h
    cases hstep : step noFault st tr m rest.isEmpty with
    | error trE =>
      exfalso
      have : runLoop noFault (m :: rest) i st tr = Except.error (i, trE) := by
        show (match step noFault st tr m rest.isEmpty with
          | Except.error trE => Except.error (i, trE)
          | Except.ok (st1, tr1) => runLoop noFault rest (i + 1) st1 tr1) = _
        rw [hstep]
      rw [this] at h
      cases h
    | ok p =>
      rcases p with ⟨s1, t1⟩
      have hrest : runLoop noFault rest (i + 1) s1 t1 = Except.ok (stN, trN) := by
        have : runLoop noFault (m :: rest) i st tr = runLoop noFault rest (i + 1) s1 t1 := by
          show (match step noFault st tr m rest.isEmpty with
            | Except.error trE => Except.error (i, trE)
            | Except.ok (st1, tr1) => runLoop noFault rest (i + 1) st1 tr1) = _
          rw [hstep]
        rw [← this]
        exact h
      show (match step noFault st tr m rest.isEmpty with
        | Except.ok (st1, tr1) => runUpTo rest rest.length st1 tr1
        | Except.error _ => (st, tr)) = (stN, trN)
      rw [hstep]
      exact ih (i + 1) s1 t1 stN trN hrest

@[simp] lemma ok_bind {α β γ : Type} (a : α) (f : α → Except γ β) :
    (Except.ok a : Except γ α) >>= f = f a := rfl

@[simp] lemma error_bind {α β γ : Type} (e : γ) (f : α → Except γ β) :
    (Except.error e : Except γ α) >>= f = Except.error e := rfl

/-- Fault-free evaluation of `_writeLastTest`. -/
lemma writeLastTest_noFault_eq (st : AllureReportState) (tr : Trace) :
    _writeLastTest noFault st tr =
      match st.currentTestUuid with
      | none => Except.ok (st, tr)
      | some t =>
        Except.ok ({ st with scopesStack := st.scopesStack.tail, currentTestUuid := none },
          (tr ++ (match st.scopesStack with
                  | [] => []
                  | s :: _ => [BEvent.writeScope s])) ++ [BEvent.writeTest t]) := by
  cases h : st.currentTestUuid with
  | none => simp [_writeLastTest, h]
  | some t =>
    cases h2 : st.scopesStack with
    | nil =>
      simp [_writeLastTest, h, _closeScope, h2, awaitCall_noFault]
    | cons s rest =>
      simp [_writeLastTest, h, _closeScope, h2, awaitCall_noFault]

lemma writeLastTest_noFault_ok (st : AllureReportState) (tr : Trace) :
    ∃ s u, _writeLastTest noFault st tr = Except.ok (s, u) ∧
      s.currentTestUuid = none ∧ s.executablesStack = st.executablesStack ∧
      s.fixturesStack = st.fixturesStack := by
  rw [writeLastTest_noFault_eq]
  cases h : st.currentTestUuid with
  | none => exact ⟨st, tr, rfl, h, rfl, rfl⟩
  | some t => exact ⟨_, _, rfl, rfl, rfl, rfl⟩

/-- Fault-free replay always succeeds, with an empty scope stack and no
current test in the final state. -/
lemma process_noFault_ok (msgs : List Msg) :
    ∃ st tr, processRuntimeMessage noFault msgs = Except.ok (st, tr) ∧
      st.scopesStack = [] ∧ st.currentTestUuid = none := by
  obtain ⟨stL, trL, hL, _, _⟩ := runLoop_sim msgs 0 initState []
  obtain ⟨sW, trW, hW, hcur, _, _⟩ := writeLastTest_noFault_ok stL trL
  refine ⟨{ sW with scopesStack := [] }, trW ++ sW.scopesStack.map BEvent.writeScope,
    ?_, rfl, hcur⟩
  simp only [processRuntimeMessage, hL, hW, drainScopes_noFault]

/-- C1 (amended): after a fault-free replay the scope stack has been fully
drained and no test remains current; the executable stack (and, likewise, the
fixture stack) is not cleared by replay and may retain handles of nodes that
were already persisted. -/
theorem c1_replay_drains_scopes_and_current :
    ∀ msgs : List Msg, ∃ st tr, replay msgs = Except.ok (st, tr) ∧
      st.scopesStack = [] ∧ st.currentTestUuid = none := by
  intro msgs
  exact process_noFault_ok msgs

/-- C1 (counterexample): the log `[test_start]` completes replay with the
started test's handle still on the executable stack, refuting "the scope
stack, the executable stack, and the fixture stack are all empty". -/
theorem c1_counterexample :
    (replayState [Msg.testStart "A" 0]).executablesStack = [1] ∧
    (replayState [Msg.testStart "A" 0]).executablesStack ≠ [] := by
  constructor
  · rfl
  · intro h
    have h2 : (replayState [Msg.testStart "A" 0]).executablesStack = [1] := rfl
    rw [h2] at h
    cases h

/-- C10: replay of any finite log terminates with a result — the per-message
loop, the step force-close loop (exactly `n` iterations for counter `n`), and
the end-of-log scope drain (exactly one persist per stacked scope) all
complete. -/
theorem c10_replay_terminates :
    (∀ msgs : List Msg, ∃ st tr, replay msgs = Except.ok (st, tr)) ∧
    (∀ (t : Nat) (status : AllureStatus) (stop n : Nat) (tr : Trace),
      closeStepsLoop t status stop n tr =
        tr ++ List.replicate n (BEvent.applyMessages t (Msg.stepStop status stop))) ∧
    (∀ (l : List Nat) (tr : Trace),
      drainGo noFault l tr = Except.ok (tr ++ l.map BEvent.writeScope)) := by
  refine ⟨fun msgs => ?_, fun t status stop n tr => closeStepsLoop_eq t status stop n tr,
    drainGo_noFault⟩
  obtain ⟨st, tr, h, _, _⟩ := process_noFault_ok msgs
  exact ⟨st, tr, h⟩

/-- C9: whenever a backend operation rejects during replay, the failure
propagates out of `processRuntimeMessage` as the error of the pass, carrying
the index `j` of the message being processed (`j` = log length for the
end-of-log drain); no message after `j` is processed — the completed calls
extend exactly the fault-free calls of the first `j` messages and form a
prefix of the fault-free call sequence of the whole log, issued in order with
no retry. -/
theorem c9_backend_failure_aborts_replay :
    ∀ (oracle : Nat → Bool) (msgs : List Msg) (j : Nat) (trF : Trace),
      processRuntimeMessage oracle msgs = Except.error (j, trF) →
      j ≤ msgs.length ∧ (runUpTo msgs j initState []).2 <+: trF ∧
      ∃ stO trO, processRuntimeMessage noFault msgs = Except.ok (stO, trO) ∧
        trF <+: trO := by
  intro oracle msgs j trF h
  obtain ⟨stL, trL, hL, hpreL, hdiL⟩ := runLoop_sim msgs 0 initState []
  obtain ⟨sW, trW, hW, hpreW, hdiW⟩ := good_writeLastTest stL trL
  replace hW : _writeLastTest noFault stL trL = Except.ok (sW, trW) := hW
  obtain ⟨sD, trD, hD, hpreD, hdiD⟩ := good_drainScopes sW trW
  replace hD : drainScopes noFault sW trW = Except.ok (sD, trD) := hD
  have hfull : processRuntimeMessage noFault msgs = Except.ok (sD, trD) := by
    simp only [processRuntimeMessage, hL, hW, hD]
  have hupto : runUpTo msgs msgs.length initState [] = (stL, trL) :=
    runUpTo_full msgs 0 initState [] stL trL hL
  rcases hdiL oracle with heqL | ⟨j', trE, hEL, _, hlt, hlow, hup⟩
  · replace heqL : runLoop oracle msgs 0 initState [] = Except.ok (stL, trL) := by
      rw [heqL]; exact hL
    rcases hdiW oracle with heqW | ⟨trE, hEW, h1W, h2W⟩
    · replace heqW : _writeLastTest oracle stL trL = Except.ok (sW, trW) := by
        have : _writeLastTest oracle stL trL = _writeLastTest noFault stL trL := heqW
        rw [this]; exact hW
      rcases hdiD oracle with heqD | ⟨trE, hED, h1D, h2D⟩
      · exfalso
        replace heqD : drainScopes oracle sW trW = Except.ok (sD, trD) := by
          have : drainScopes oracle sW trW = drainScopes noFault sW trW := heqD
          rw [this]; exact hD
        have hP : processRuntimeMessage oracle msgs = Except.ok (sD, trD) := by
          simp only [processRuntimeMessage, heqL, heqW, heqD]
        rw [hP] at h
        cases h
      · replace hED : drainScopes oracle sW trW = Except.error trE := hED
        have hP : processRuntimeMessage oracle msgs = Except.error (msgs.length, trE) := by
          simp only [processRuntimeMessage, heqL, heqW, hED]
        rw [hP] at h
        injection h with h3
        injection h3 with h4 h5
        subst h4
        subst h5
        refine ⟨Nat.le_refl _, ?_, sD, trD, hfull, pfx_trans h2D (pfx_rfl trD)⟩
        rw [hupto]
        exact pfx_trans hpreW h1D
    · replace hEW : _writeLastTest oracle stL trL = Except.error trE := hEW
      have hP : processRuntimeMessage oracle msgs = Except.error (msgs.length, trE) := by
        simp only [processRuntimeMessage, heqL, hEW]
      rw [hP] at h
      injection h with h3
      injection h3 with h4 h5
      subst h4
      subst h5
      refine ⟨Nat.le_refl _, ?_, sD, trD, hfull, pfx_trans h2W hpreD⟩
      rw [hupto]
      exact h1W
  · replace hEL : runLoop oracle msgs 0 initState [] = Except.error (j', trE) := hEL
    have hP : processRuntimeMessage oracle msgs = Except.error (j', trE) := by
      simp only [processRuntimeMessage, hEL]
    rw [hP] at h
    injection h with h3
    injection h3 with h4 h5
    subst h4
    subst h5
    refine ⟨by omega, ?_, sD, trD, hfull, pfx_trans hup (pfx_trans hpreW hpreD)⟩
    simpa using hlow

/-- C8: a `test_end` with an empty executable stack, and a `hook_end` with an
empty fixture stack, are no-ops under any backend: no backend call is made,
no error raised, and the session state is returned unchanged. -/
theorem c8_end_without_start_is_noop :
    ∀ (oracle : Nat → Bool) (st : AllureReportState) (tr : Trace) (L : Bool),
      (st.executablesStack = [] →
        ∀ (status : AllureStatus) (stage : Option String) (stop : Nat)
          (dur : Option Nat) (det : Option String),
          step oracle st tr (Msg.testEnd status stage stop dur det) L = Except.ok (st, tr)) ∧
      (st.fixturesStack = [] →
        ∀ (status : AllureStatus) (det : Option String) (stop : Nat) (dur : Option Nat),
          step oracle st tr (Msg.hookEnd status det stop dur) L = Except.ok (st, tr)) := by
  intro oracle st tr L
  constructor
  · intro h status stage stop dur det
    simp only [step, _endTest, h]
  · intro h status det stop dur
    simp only [step, _endHook, h]

/-- C8 (witness): both no-op cases evaluated at the fresh session state. -/
theorem c8_end_without_start_is_noop_witness :
    step noFault initState [] (Msg.testEnd AllureStatus.passed none 1 none none) false =
      Except.ok (initState, []) ∧
    step noFault initState [] (Msg.hookEnd AllureStatus.failed none 2 none) true =
      Except.ok (initState, []) :=
  ⟨(c8_end_without_start_is_noop noFault initState [] false).1 rfl
      AllureStatus.passed none 1 none none,
   (c8_end_without_start_is_noop noFault initState [] true).2 rfl
      AllureStatus.failed none 2 none⟩

/-- C2: processing `test_start` for a new test B while test A is current
(handles being backend-fresh, so A's handle precedes the uuid counter)
first persists A via `writeTest` — and never touches A's record again, in
particular never rewrites its status — and afterwards B is the sole current
test with the open-step counter reset to 0. -/
theorem c2_second_test_start_finalizes_first :
    ∀ (st : AllureReportState) (tr : Trace) (nm : String) (t0 : Nat) (L : Bool) (a : Nat),
      st.currentTestUuid = some a → a < st.nextUuid →
      ∃ st' tr' b ev,
        step noFault st tr (Msg.testStart nm t0) L = Except.ok (st', tr') ∧
        tr' = tr ++ ev ∧
        BEvent.writeTest a ∈ ev ∧
        (∀ u, BEvent.updateTest a u ∉ ev) ∧
        st'.currentTestUuid = some b ∧ b ≠ a ∧ st'.openSteps = 0 := by
  intro st tr nm t0 L a h ha
  cases h2 : st.scopesStack with
  | nil =>
    have hstep : step noFault st tr (Msg.testStart nm t0) L = Except.ok
        ({ st with scopesStack := [st.nextUuid],
                   executablesStack := (st.nextUuid + 1) :: st.executablesStack,
                   currentTestUuid := some (st.nextUuid + 1),
                   openSteps := 0,
                   nextUuid := st.nextUuid + 2 },
         tr ++ [BEvent.writeTest a, BEvent.startScope st.nextUuid,
                BEvent.startTest (st.nextUuid + 1) nm t0 [st.nextUuid]]) := by
      simp [step, _startTest, _writeLastTest, _closeScope, _startTestCore, _openScope,
        h, h2, awaitCall_noFault]
    refine ⟨_, _, st.nextUuid + 1,
      [BEvent.writeTest a, BEvent.startScope st.nextUuid,
       BEvent.startTest (st.nextUuid + 1) nm t0 [st.nextUuid]],
      hstep, rfl, ?_, ?_, rfl, by omega, rfl⟩
    · simp
    · intro u
      simp
  | cons s rest =>
    have hstep : step noFault st tr (Msg.testStart nm t0) L = Except.ok
        ({ st with scopesStack := st.nextUuid :: rest,
                   executablesStack := (st.nextUuid + 1) :: st.executablesStack,
                   currentTestUuid := some (st.nextUuid + 1),
                   openSteps := 0,
                   nextUuid := st.nextUuid + 2 },
         tr ++ [BEvent.writeScope s, BEvent.writeTest a, BEvent.startScope st.nextUuid,
                BEvent.startTest (st.nextUuid + 1) nm t0 (st.nextUuid :: rest)]) := by
      simp [step, _startTest, _writeLastTest, _closeScope, _startTestCore, _openScope,
        h, h2, awaitCall_noFault]
    refine ⟨_, _, st.nextUuid + 1,
      [BEvent.writeScope s, BEvent.writeTest a, BEvent.startScope st.nextUuid,
       BEvent.startTest (st.nextUuid + 1) nm t0 (st.nextUuid :: rest)],
      hstep, rfl, ?_, ?_, rfl, by omega, rfl⟩
    · simp
    · intro u
      simp

/-- C2 (witness): the session that already started test A (uuid 1 in scope 0)
receives a `test_start` for B. -/
theorem c2_second_test_start_finalizes_first_witness :
    ∃ st' tr' b ev,
      step noFault
        { scopesStack := [0], executablesStack := [1], fixturesStack := [],
          currentTestUuid := some 1, openSteps := 0, nextUuid := 2 }
        [] (Msg.testStart "B" 5) false = Except.ok (st', tr') ∧
      tr' = [] ++ ev ∧
      BEvent.writeTest 1 ∈ ev ∧
      (∀ u, BEvent.updateTest 1 u ∉ ev) ∧
      st'.currentTestUuid = some b ∧ b ≠ 1 ∧ st'.openSteps = 0 :=
  c2_second_test_start_finalizes_first
    { scopesStack := [0], executablesStack := [1], fixturesStack := [],
      currentTestUuid := some 1, openSteps := 0, nextUuid := 2 }
    [] "B" 5 false 1 rfl (by decide)

/-- C3: a `test_end` processed while a test is current with `n > 0` open
steps and a non-empty executable stack — whether or not it is the last
message of the log — force-closes exactly `n` steps: `n` `step_stop`
applications to the current test, each carrying the `test_end`'s status and
stop time, before the popped test is updated and stopped, and the open-step
counter is 0 afterwards.  When the message is the log's last, only the
final-flush tail (the scope persist and `writeTest` of `_writeLastTest`)
follows the `stopTest` call. -/
theorem c3_test_end_force_closes_open_steps :
    ∀ (st : AllureReportState) (tr : Trace) (status : AllureStatus)
      (stage : Option String) (stop : Nat) (dur : Option Nat) (det : Option String)
      (t n : Nat) (L : Bool),
      st.currentTestUuid = some t → st.openSteps = n → 0 < n →
      st.executablesStack ≠ [] →
      ∃ e es st' tail,
        st.executablesStack = e :: es ∧
        step noFault st tr (Msg.testEnd status stage stop dur det) L =
          Except.ok (st',
            tr ++ List.replicate n (BEvent.applyMessages t (Msg.stepStop status stop)) ++
            [BEvent.updateTest e (TestUpdate.result status stage det),
             BEvent.stopTest e stop dur] ++ tail) ∧
        st'.openSteps = 0 ∧
        (L = false →
          tail = [] ∧ st' = { st with executablesStack := es, openSteps := 0 }) ∧
        (L = true →
          tail = (match st.scopesStack with
                  | [] => []
                  | s :: _ => [BEvent.writeScope s]) ++ [BEvent.writeTest t] ∧
          st'.currentTestUuid = none) := by
  intro st tr status stage stop dur det t n L h hn hpos hne
  cases hx : st.executablesStack with
  | nil => exact absurd hx hne
  | cons e es =>
    subst hn
    cases L with
    | false =>
      refine ⟨e, es, { st with executablesStack := es, openSteps := 0 }, [], rfl, ?_,
        rfl, fun _ => ⟨rfl, rfl⟩, fun hL => nomatch hL⟩
      simp [step, _endTest, _closeOpenedSteps, closeStepsLoop_eq, hx, h, awaitCall_noFault]
    | true =>
      cases h2 : st.scopesStack with
      | nil =>
        have hstep : step noFault st tr (Msg.testEnd status stage stop dur det) true =
            Except.ok
              ({ st with executablesStack := es, openSteps := 0, currentTestUuid := none },
               tr ++ List.replicate st.openSteps
                   (BEvent.applyMessages t (Msg.stepStop status stop)) ++
                 [BEvent.updateTest e (TestUpdate.result status stage det),
                  BEvent.stopTest e stop dur] ++ [BEvent.writeTest t]) := by
          simp [step, _endTest, _closeOpenedSteps, closeStepsLoop_eq, _writeLastTest,
            _closeScope, hx, h, h2, awaitCall_noFault]
        exact ⟨e, es, _, [BEvent.writeTest t], rfl, hstep, rfl,
          fun hL => Bool.noConfusion hL, fun _ => ⟨rfl, rfl⟩⟩
      | cons s rest =>
        have hstep : step noFault st tr (Msg.testEnd status stage stop dur det) true =
            Except.ok
              ({ st with executablesStack := es, openSteps := 0, scopesStack := rest,
                         currentTestUuid := none },
               tr ++ List.replicate st.openSteps
                   (BEvent.applyMessages t (Msg.stepStop status stop)) ++
                 [BEvent.updateTest e (TestUpdate.result status stage det),
                  BEvent.stopTest e stop dur] ++ [BEvent.writeScope s, BEvent.writeTest t]) := by
          simp [step, _endTest, _closeOpenedSteps, closeStepsLoop_eq, _writeLastTest,
            _closeScope, hx, h, h2, awaitCall_noFault]
        exact ⟨e, es, _, [BEvent.writeScope s, BEvent.writeTest t], rfl, hstep, rfl,
          fun hL => Bool.noConfusion hL, fun _ => ⟨rfl, rfl⟩⟩

/-- C3 (witness): a session with one current test (uuid 1) inside scope 0, two
open steps and the test on the executable stack receives `test_end` as the
last message of the log — the case of the log
`test_start → step_start → test_end`. -/
theorem c3_test_end_force_closes_open_steps_witness :
    ∃ e es st' tail,
      ({ scopesStack := [0], executablesStack := [1], fixturesStack := [],
         currentTestUuid := some 1, openSteps := 2, nextUuid := 2 } :
           AllureReportState).executablesStack = e :: es ∧
      step noFault
        { scopesStack := [0], executablesStack := [1], fixturesStack := [],
          currentTestUuid := some 1, openSteps := 2, nextUuid := 2 }
        [] (Msg.testEnd AllureStatus.failed none 9 none none) true =
        Except.ok (st',
          [] ++ List.replicate 2 (BEvent.applyMessages 1 (Msg.stepStop AllureStatus.failed 9)) ++
          [BEvent.updateTest e (TestUpdate.result AllureStatus.failed none none),
           BEvent.stopTest e 9 none] ++ tail) ∧
      st'.openSteps = 0 ∧
      (true = false →
        tail = [] ∧
        st' = { scopesStack := [0], executablesStack := es, fixturesStack := [],
                currentTestUuid := some 1, openSteps := 0, nextUuid := 2 }) ∧
      (true = true →
        tail = [BEvent.writeScope 0] ++ [BEvent.writeTest 1] ∧
        st'.currentTestUuid = none) :=
  c3_test_end_force_closes_open_steps
    { scopesStack := [0], executablesStack := [1], fixturesStack := [],
      currentTestUuid := some 1, openSteps := 2, nextUuid := 2 }
    [] AllureStatus.failed none 9 none none 1 2 true rfl rfl (by decide) (by decide)

/-- C7: a `hook_start` whose name matches the caseless "after all" pattern,
arriving while a test is current, persists that test (`writeTest`) strictly
before the backend's start-fixture call; between them only the scope persist
of the test's own scope may occur, before the `writeTest`. -/
theorem c7_after_all_hook_finalizes_open_test_first :
    ∀ (st : AllureReportState) (tr : Trace) (name : String) (kind : HookKind)
      (start : Nat) (t : Nat) (L : Bool),
      st.currentTestUuid = some t → matchesAfterAll name = true →
      ∃ st' tr' pre sc hu,
        step noFault st tr (Msg.hookStart name kind start) L = Except.ok (st', tr') ∧
        tr' = tr ++ pre ++ [BEvent.writeTest t, BEvent.startFixture sc hu kind name start] ∧
        (pre = [] ∨ ∃ x, pre = [BEvent.writeScope x]) := by
  intro st tr name kind start t L h hm
  cases h2 : st.scopesStack with
  | nil =>
    have hstep : step noFault st tr (Msg.hookStart name kind start) L = Except.ok
        ({ st with currentTestUuid := none },
         tr ++ [] ++ [BEvent.writeTest t, BEvent.startFixture none none kind name start]) := by
      simp [step, _startHook, _writeLastTest, _closeScope, _startHookCore,
        h, hm, h2, awaitCall_noFault]
    exact ⟨_, _, [], none, none, hstep, rfl, Or.inl rfl⟩
  | cons s rest =>
    cases h3 : rest with
    | nil =>
      have hstep : step noFault st tr (Msg.hookStart name kind start) L = Except.ok
          ({ st with scopesStack := [], currentTestUuid := none },
           tr ++ [BEvent.writeScope s] ++
             [BEvent.writeTest t, BEvent.startFixture none none kind name start]) := by
        simp [step, _startHook, _writeLastTest, _closeScope, _startHookCore,
          h, hm, h2, h3, awaitCall_noFault]
      exact ⟨_, _, [BEvent.writeScope s], none, none, hstep, rfl, Or.inr ⟨s, rfl⟩⟩
    | cons r rs =>
      have hstep : step noFault st tr (Msg.hookStart name kind start) L = Except.ok
          ({ st with scopesStack := r :: rs, currentTestUuid := none,
                     fixturesStack := st.nextUuid :: st.fixturesStack,
                     nextUuid := st.nextUuid + 1 },
           tr ++ [BEvent.writeScope s] ++
             [BEvent.writeTest t,
              BEvent.startFixture (some r) (some st.nextUuid) kind name start]) := by
        simp [step, _startHook, _writeLastTest, _closeScope, _startHookCore,
          h, hm, h2, h3, awaitCall_noFault]
      exact ⟨_, _, [BEvent.writeScope s], some r, some st.nextUuid, hstep, rfl,
        Or.inr ⟨s, rfl⟩⟩

/-- C7 (witness): an "after all" hook arrives while test 1 is current inside
scope 0. -/
theorem c7_after_all_hook_finalizes_open_test_first_witness :
    ∃ st' tr' pre sc hu,
      step noFault
        { scopesStack := [0], executablesStack := [1], fixturesStack := [],
          currentTestUuid := some 1, openSteps := 0, nextUuid := 2 }
        [] (Msg.hookStart "\"after all\" hook" HookKind.after 7) false =
        Except.ok (st', tr') ∧
      tr' = [] ++ pre ++
        [BEvent.writeTest 1,
         BEvent.startFixture sc hu HookKind.after "\"after all\" hook" 7] ∧
      (pre = [] ∨ ∃ x, pre = [BEvent.writeScope x]) :=
  c7_after_all_hook_finalizes_open_test_first
    { scopesStack := [0], executablesStack := [1], fixturesStack := [],
      currentTestUuid := some 1, openSteps := 0, nextUuid := 2 }
    [] "\"after all\" hook" HookKind.after 7 1 false rfl (by decide)

/-- C4 (counterexample): replaying the round-trip log issues two `writeScope`
calls (the suite's scope and the per-test scope opened by `_startTest`), not
one, refuting "exactly one persisted scope". -/
theorem c4_counterexample :
    ((replayTrace roundTripLog).filter isWriteScopeEv).length = 2 ∧
    ((replayTrace roundTripLog).filter isWriteScopeEv).length ≠ 1 := by
  constructor
  · rfl
  · have h : ((replayTrace roundTripLog).filter isWriteScopeEv).length = 2 := rfl
    omega

/-- C4 (amended): replaying
`suite_start → test_start → step_start → step_stop → test_end → suite_end`
yields exactly two persisted scopes (the suite's scope and the per-test
scope), exactly one persisted test whose open-step counter is zero, and
exactly one `step_start`/`step_stop` pair applied to that test. -/
theorem c4_round_trip_amended :
    ((replayTrace roundTripLog).filter isWriteScopeEv).length = 2 ∧
    ((replayTrace roundTripLog).filter isWriteTestEv).length = 1 ∧
    ((replayTrace roundTripLog).filter isApplyStepStartEv).length = 1 ∧
    ((replayTrace roundTripLog).filter isApplyStepStopEv).length = 1 ∧
    (replayState roundTripLog).openSteps = 0 := by
  exact ⟨rfl, rfl, rfl, rfl, rfl⟩

lemma fli_ge (p : Msg → Bool) : ∀ l : List Msg, -1 ≤ findLastIndex p l := by
  intro l
  induction l with
  | nil => simp [findLastIndex]
  | cons x xs ih =>
    simp only [findLastIndex]
    split
    · omega
    · split
      · omega
      · omega

lemma fli_lt_length (p : Msg → Bool) : ∀ l : List Msg,
    findLastIndex p l < (l.length : Int) := by
  intro l
  induction l with
  | nil => simp [findLastIndex]
  | cons x xs ih =>
    simp only [findLastIndex, List.length_cons]
    split
    · push_cast
      omega
    · split
      · push_cast
        omega
      · push_cast
        omega

lemma fli_le_of_get (p : Msg → Bool) : ∀ (l : List Msg) (j : Nat) (hj : j < l.length),
    p (l.get ⟨j, hj⟩) = true → (j : Int) ≤ findLastIndex p l := by
  intro l
  induction l with
  | nil => intro j hj; exact absurd hj (by simp)
  | cons x xs ih =>
    intro j hj hp
    cases j with
    | zero =>
      replace hp : p x = true := hp
      simp only [findLastIndex]
      split
      · omega
      · simp [hp]
    | succ i =>
      have hj2 : i < xs.length := Nat.lt_of_succ_lt_succ hj
      replace hp : p (xs.get ⟨i, hj2⟩) = true := hp
      have hle := ih i hj2 hp
      simp only [findLastIndex]
      split
      · push_cast
        omega
      · push_cast
        omega

lemma fli_spec (p : Msg → Bool) : ∀ l : List Msg,
    (findLastIndex p l = -1 ∧ ∀ i, ∀ hi : i < l.length, p (l.get ⟨i, hi⟩) = false) ∨
    (∃ k, ∃ hk : k < l.length, findLastIndex p l = (k : Int) ∧
      p (l.get ⟨k, hk⟩) = true ∧
      ∀ j, ∀ hj : j < l.length, k < j → p (l.get ⟨j, hj⟩) = false) := by
  intro l
  induction l with
  | nil =>
    left
    exact ⟨rfl, fun i hi => absurd hi (by simp)⟩
  | cons x xs ih =>
    rcases ih with ⟨h1, h2⟩ | ⟨k, hk, hfk, hpk, hmax⟩
    · by_cases hp : p x = true
      · right
        refine ⟨0, by simp, ?_, hp, ?_⟩
        · simp [findLastIndex, h1, hp]
        · intro j hj hj0
          cases j with
          | zero => omega
          | succ i => exact h2 i (Nat.lt_of_succ_lt_succ hj)
      · have hpf : p x = false := by
          cases hb : p x with
          | true => exact absurd hb hp
          | false => rfl
        left
        refine ⟨by simp [findLastIndex, h1, hpf], ?_⟩
        intro i hi
        cases i with
        | zero => exact hpf
        | succ i2 => exact h2 i2 (Nat.lt_of_succ_lt_succ hi)
    · right
      have hr : (0 : Int) ≤ findLastIndex p xs := by rw [hfk]; omega
      refine ⟨k + 1, Nat.succ_lt_succ hk, ?_, hpk, ?_⟩
      · simp only [findLastIndex]
        rw [if_pos hr, hfk]
        push_cast
        omega
      · intro j hj hkj
        cases j with
        | zero => omega
        | succ i => exact hmax i (Nat.lt_of_succ_lt_succ hj) (Nat.lt_of_succ_lt_succ hkj)

lemma fli_append_singleton (p : Msg → Bool) : ∀ (l : List Msg) (x : Msg),
    findLastIndex p (l ++ [x]) =
      if p x = true then (l.length : Int) else findLastIndex p l := by
  intro l x
  induction l with
  | nil =>
    cases hp : p x with
    | true => simp [findLastIndex, hp]
    | false => simp [findLastIndex, hp]
  | cons y l ih =>
    cases hp : p x with
    | true =>
      simp [List.cons_append, findLastIndex, List.append_eq, ih, hp]
    | false =>
      simp [List.cons_append, findLastIndex, List.append_eq, ih, hp]

lemma fli_gt_iff (ps pe : Msg → Bool) (hd : ∀ m, ps m = true → pe m = false)
    (l : List Msg) :
    (findLastIndex pe l < findLastIndex ps l ↔ PendingSpec ps pe l) := by
  constructor
  · intro hlt
    rcases fli_spec ps l with ⟨h1, _⟩ | ⟨k, hk, hfk, hpk, hmax⟩
    · exfalso
      have hge := fli_ge pe l
      rw [h1] at hlt
      omega
    · refine ⟨k, hk, hpk, ?_⟩
      intro j hj hkj
      cases hb : pe (l.get ⟨j, hj⟩) with
      | false => rfl
      | true =>
        exfalso
        have hle := fli_le_of_get pe l j hj hb
        rw [hfk] at hlt
        omega
  · rintro ⟨i, hi, hpi, hni⟩
    have h1 : (i : Int) ≤ findLastIndex ps l := fli_le_of_get ps l i hi hpi
    rcases fli_spec pe l with ⟨h2, _⟩ | ⟨k, hk, hfk, hpk, hmax⟩
    · rw [h2]
      omega
    · rw [hfk]
      rcases Nat.lt_trichotomy k i with hki | hki | hki
      · omega
      · exfalso
        subst hki
        have hsame : l.get ⟨k, hk⟩ = l.get ⟨k, hi⟩ := rfl
        rw [hsame, hd _ hpi] at hpk
        cases hpk
      · exfalso
        rw [hni k hk hki] at hpk
        cases hpk

/-- C5: each pending predicate holds iff the last index of its start kind is
strictly greater than the last index of its paired end kind (missing kinds
having index `-1`) — equivalently, iff some start message has no later end
message; in particular `hasPendingTest` is true right after a `test_start` is
appended and false right after the paired `test_end` is appended, whatever
other message kinds lie in between. -/
theorem c5_pending_predicates :
    (∀ l, hasPendingSuite l = true ↔ PendingSpec isSuiteStartMsg isSuiteEndMsg l) ∧
    (∀ l, hasPendingTest l = true ↔ PendingSpec isTestStartMsg isTestEndMsg l) ∧
    (∀ l, hasPendingStep l = true ↔ PendingSpec isStepStartMsg isStepStopMsg l) ∧
    (∀ l, hasPendingHook l = true ↔ PendingSpec isHookStartMsg isHookEndMsg l) ∧
    (∀ (l : List Msg) (nm : String) (s : Nat),
      hasPendingTest (l ++ [Msg.testStart nm s]) = true) ∧
    (∀ (l : List Msg) (nm : String) (s : Nat) (mid : List Msg)
      (status : AllureStatus) (stage : Option String) (stop : Nat)
      (dur : Option Nat) (det : Option String),
      (∀ m ∈ mid, isTestStartMsg m = false ∧ isTestEndMsg m = false) →
      hasPendingTest ((l ++ Msg.testStart nm s :: mid) ++
        [Msg.testEnd status stage stop dur det]) = false) := by
  refine ⟨?_, ?_, ?_, ?_, ?_, ?_⟩
  · intro l
    simp only [hasPendingSuite, gt_iff_lt, decide_eq_true_eq]
    exact fli_gt_iff _ _ (fun m => by cases m <;> simp [isSuiteStartMsg, isSuiteEndMsg]) l
  · intro l
    simp only [hasPendingTest, gt_iff_lt, decide_eq_true_eq]
    exact fli_gt_iff _ _ (fun m => by cases m <;> simp [isTestStartMsg, isTestEndMsg]) l
  · intro l
    simp only [hasPendingStep, gt_iff_lt, decide_eq_true_eq]
    exact fli_gt_iff _ _ (fun m => by cases m <;> simp [isStepStartMsg, isStepStopMsg]) l
  · intro l
    simp only [hasPendingHook, gt_iff_lt, decide_eq_true_eq]
    exact fli_gt_iff _ _ (fun m => by cases m <;> simp [isHookStartMsg, isHookEndMsg]) l
  · intro l nm s
    simp only [hasPendingTest, gt_iff_lt, decide_eq_true_eq]
    have h1 : findLastIndex isTestStartMsg (l ++ [Msg.testStart nm s]) = (l.length : Int) := by
      rw [fli_append_singleton]
      simp [isTestStartMsg]
    have h2 : findLastIndex isTestEndMsg (l ++ [Msg.testStart nm s]) =
        findLastIndex isTestEndMsg l := by
      rw [fli_append_singleton]
      simp [isTestEndMsg]
    have h3 := fli_lt_length isTestEndMsg l
    omega
  · intro l nm s mid status stage stop dur det _
    simp only [hasPendingTest, gt_iff_lt, decide_eq_false_iff_not]
    have h1 : findLastIndex isTestEndMsg
        ((l ++ Msg.testStart nm s :: mid) ++ [Msg.testEnd status stage stop dur det]) =
        ((l ++ Msg.testStart nm s :: mid).length : Int) := by
      rw [fli_append_singleton]
      simp [isTestEndMsg]
    have h2 : findLastIndex isTestStartMsg
        ((l ++ Msg.testStart nm s :: mid) ++ [Msg.testEnd status stage stop dur det]) =
        findLastIndex isTestStartMsg (l ++ Msg.testStart nm s :: mid) := by
      rw [fli_append_singleton]
      simp [isTestStartMsg]
    have h3 := fli_lt_length isTestStartMsg (l ++ Msg.testStart nm s :: mid)
    omega

/-- C5 (witness): the pending-test predicate evaluated right after a pair of
pushes, with another message kind in between. -/
theorem c5_pending_predicates_witness :
    hasPendingTest (([Msg.suiteEnd] ++ Msg.testStart "t" 0 :: [Msg.metadata]) ++
      [Msg.testEnd AllureStatus.passed none 1 none none]) = false ∧
    hasPendingTest ([Msg.suiteEnd] ++ [Msg.testStart "t" 0]) = true :=
  ⟨c5_pending_predicates.2.2.2.2.2 [Msg.suiteEnd] "t" 0 [Msg.metadata]
      AllureStatus.passed none 1 none none (by decide),
   c5_pending_predicates.2.2.2.2.1 [Msg.suiteEnd] "t" 0⟩

lemma findLast_spec (p : Msg → Bool) : ∀ l : List Msg,
    (findLast p l = none ∧ ∀ i, ∀ hi : i < l.length, p (l.get ⟨i, hi⟩) = false) ∨
    (∃ x k, ∃ hk : k < l.length, findLast p l = some x ∧ l.get ⟨k, hk⟩ = x ∧
      p x = true ∧ ∀ j, ∀ hj : j < l.length, k < j → p (l.get ⟨j, hj⟩) = false) := by
  intro l
  induction l with
  | nil =>
    left
    exact ⟨rfl, fun i hi => absurd hi (by simp)⟩
  | cons x xs ih =>
    rcases ih with ⟨h1, h2⟩ | ⟨y, k, hk, hf, hget, hpy, hmax⟩
    · by_cases hp : p x = true
      · right
        refine ⟨x, 0, by simp, by simp [findLast, h1, hp], rfl, hp, ?_⟩
        intro j hj hj0
        cases j with
        | zero => omega
        | succ i => exact h2 i (Nat.lt_of_succ_lt_succ hj)
      · have hpf : p x = false := by
          cases hb : p x with
          | true => exact absurd hb hp
          | false => rfl
        left
        refine ⟨by simp [findLast, h1, hpf], ?_⟩
        intro i hi
        cases i with
        | zero => exact hpf
        | succ i2 => exact h2 i2 (Nat.lt_of_succ_lt_succ hi)
    · right
      refine ⟨y, k + 1, Nat.succ_lt_succ hk, by simp [findLast, hf], hget, hpy, ?_⟩
      intro j hj hkj
      cases j with
      | zero => omega
      | succ i => exact hmax i (Nat.lt_of_succ_lt_succ hj) (Nat.lt_of_succ_lt_succ hkj)

/-- C6 (counterexample): after `suite_start{feature} → suite_end` the feature
suite is closed, yet `currentFeature` still returns its name, refuting
"undefined when the most recent feature-level suite-start has already been
followed by its matching suite-end". -/
theorem c6_counterexample :
    currentFeature [Msg.suiteStart "F" true, Msg.suiteEnd] = some "F" ∧
    currentFeature [Msg.suiteStart "F" true, Msg.suiteEnd] ≠ none := by
  constructor
  · rfl
  · intro h
    have h2 : currentFeature [Msg.suiteStart "F" true, Msg.suiteEnd] = some "F" := rfl
    rw [h2] at h
    cases h

/-- C6 (amended): `currentFeature` returns the name of the most recent
feature-level suite-start message in the log, whether or not that suite is
still open; it is undefined exactly when no feature-level suite-start exists
in the log. -/
theorem c6_current_feature_amended :
    ∀ l : List Msg,
      (currentFeature l = none ↔
        ∀ i, ∀ hi : i < l.length, isFeatureSuiteStart (l.get ⟨i, hi⟩) = false) ∧
      (∀ nm, currentFeature l = some nm ↔
        ∃ i, ∃ hi : i < l.length, l.get ⟨i, hi⟩ = Msg.suiteStart nm true ∧
          ∀ j, ∀ hj : j < l.length, i < j → isFeatureSuiteStart (l.get ⟨j, hj⟩) = false) := by
  intro l
  rcases findLast_spec isFeatureSuiteStart l with ⟨hf, hall⟩ | ⟨y, k, hk, hf, hget, hpy, hmax⟩
  · have hcf : currentFeature l = none := by simp [currentFeature, hf]
    constructor
    · exact ⟨fun _ => hall, fun _ => hcf⟩
    · intro nm
      constructor
      · intro h
        rw [hcf] at h
        cases h
      · rintro ⟨i, hi, hgi, _⟩
        exfalso
        have := hall i hi
        rw [hgi] at this
        simp [isFeatureSuiteStart] at this
  · obtain ⟨ynm, rfl⟩ : ∃ ynm, y = Msg.suiteStart ynm true := by
      cases y with
      | suiteStart n f =>
        cases f with
        | true => exact ⟨n, rfl⟩
        | false => simp [isFeatureSuiteStart] at hpy
      | suiteEnd => simp [isFeatureSuiteStart] at hpy
      | testStart n s => simp [isFeatureSuiteStart] at hpy
      | testInfo n => simp [isFeatureSuiteStart] at hpy
      | testEnd a b c d e => simp [isFeatureSuiteStart] at hpy
      | hookStart a b c => simp [isFeatureSuiteStart] at hpy
      | hookEnd a b c d => simp [isFeatureSuiteStart] at hpy
      | stepStart a b => simp [isFeatureSuiteStart] at hpy
      | stepStop a b => simp [isFeatureSuiteStart] at hpy
      | metadata => simp [isFeatureSuiteStart] at hpy
      | attachment => simp [isFeatureSuiteStart] at hpy
    have hcf : currentFeature l = some ynm := by simp [currentFeature, hf, suiteNameOf]
    constructor
    · constructor
      · intro h
        rw [hcf] at h
        cases h
      · intro hall
        exfalso
        have := hall k hk
        rw [hget] at this
        simp [isFeatureSuiteStart] at this
    · intro nm
      constructor
      · intro h
        rw [hcf] at h
        injection h with hnm
        subst hnm
        exact ⟨k, hk, hget, hmax⟩
      · rintro ⟨i, hi, hgi, hni⟩
        rcases Nat.lt_trichotomy k i with hki | hki | hki
        · exfalso
          have := hmax i hi hki
          rw [hgi] at this
          simp [isFeatureSuiteStart] at this
        · subst hki
          have hsame : l.get ⟨k, hk⟩ = l.get ⟨k, hi⟩ := rfl
          rw [hsame, hgi] at hget
          injection hget with hnm
          rw [hcf, hnm]
        · exfalso
          have := hni k hk hki
          rw [hget] at this
          simp [isFeatureSuiteStart] at this

/-- C9 (witness): an oracle failing the second backend call rejects the
`writeScope` of `suite_start → suite_end` right after the synchronous
`startScope`, aborting replay at message index 1 with only the completed
`startScope` call in the trace. -/
theorem c9_backend_failure_aborts_replay_witness :
    1 ≤ ([Msg.suiteStart "s" false, Msg.suiteEnd] : List Msg).length ∧
    (runUpTo [Msg.suiteStart "s" false, Msg.suiteEnd] 1 initState []).2 <+:
      [BEvent.startScope 0] ∧
    ∃ stO trO,
      processRuntimeMessage noFault [Msg.suiteStart "s" false, Msg.suiteEnd] =
        Except.ok (stO, trO) ∧ [BEvent.startScope 0] <+: trO :=
  c9_backend_failure_aborts_replay (fun n => n == 1)
    [Msg.suiteStart "s" false, Msg.suiteEnd] 1 [BEvent.startScope 0] rfl
